import Mathlib

/-!
Verification of the dbus-native wire codec and proxy layer.

Definitions are shallow embeddings of the repository's TypeScript sources:
`lib/signature` (signature parser), `lib/align` (padding), `lib/put` (byte
builder), `lib/marshallers` (simple per-type marshallers, 64-bit checking,
message codec, introspection proxy), `lib/constants`.  Where a repository
module is referenced but absent from the sources (the recursive
`lib/marshall.js` write driver and `bus.js`), the definition is modelled from
the specification and marked as such in its doc comment.

The file is organised as definitions first, then theorems.
-/

namespace DBus

/-! ## Signature parser (`lib/signature`, `parseSignature`) -/

/-- A node in the parsed signature tree (source: `SignatureNode`). -/
inductive SignatureNode where
  | mk (type : Char) (child : List SignatureNode)

def SignatureNode.type : SignatureNode → Char
  | .mk c _ => c

def SignatureNode.child : SignatureNode → List SignatureNode
  | .mk _ cs => cs

/-- `KNOWN_TYPES`: the characters of `"(){}ybnqiuxtdsogavh"`. -/
def knownType (c : Char) : Bool :=
  c = '(' ∨ c = ')' ∨ c = '{' ∨ c = '}' ∨ c = 'y' ∨ c = 'b' ∨ c = 'n' ∨
  c = 'q' ∨ c = 'i' ∨ c = 'u' ∨ c = 'x' ∨ c = 't' ∨ c = 'd' ∨ c = 's' ∨
  c = 'o' ∨ c = 'g' ∨ c = 'a' ∨ c = 'v' ∨ c = 'h'

/-- `BRACKET_PAIRS`: `'{' ↦ '}'`, `'(' ↦ ')'`. -/
def bracketPair (c : Char) : Char :=
  if c = '{' then '}' else ')'

mutual

/-- `parseOne` from `lib/signature`: parse one complete type whose first
character `c` has already been consumed; `rest` is the remaining character
stream.  Failure (`none`) corresponds to the source throwing.  The `fuel`
argument only forces termination; every recursive call of the source consumes
input, so `length + 1` fuel at entry is never exhausted on a success path. -/
def parseOne : Nat → Char → List Char → Option (SignatureNode × List Char)
  | 0, _, _ => none
  | fuel + 1, c, rest =>
    if ¬ knownType c then none
    else if c = 'a' then
      -- array: next character is the element type; null → "unexpected end"
      match rest with
      | [] => none
      | e :: r =>
        (parseOne fuel e r).bind fun nr => some (.mk 'a' [nr.1], nr.2)
    else if c = '(' ∨ c = '{' then
      -- struct / dict entry: children until the matching closing bracket
      (parseChildren fuel (bracketPair c) rest).bind fun nsr =>
        some (.mk c nsr.1, nsr.2)
    else
      some (.mk c [], rest)

/-- The `while ((element = next()) !== null && element !== BRACKET_PAIRS[char])`
loop of `parseOne`, followed by `checkNotEnd(element)`. -/
def parseChildren : Nat → Char → List Char → Option (List SignatureNode × List Char)
  | 0, _, _ => none
  | fuel + 1, close, rest =>
    match rest with
    | [] => none     -- checkNotEnd: unexpected end
    | e :: r =>
      if e = close then some ([], r)
      else
        (parseOne fuel e r).bind fun nr =>
          (parseChildren fuel close nr.2).bind fun nsr =>
            some (nr.1 :: nsr.1, nsr.2)

end

/-- The top-level `while ((char = next()) !== null)` loop of `parseSignature`. -/
def parseAll : Nat → List Char → Option (List SignatureNode)
  | 0, _ => none
  | fuel + 1, rest =>
    match rest with
    | [] => some []
    | c :: r =>
      (parseOne fuel c r).bind fun nr =>
        (parseAll fuel nr.2).bind fun ns => some (nr.1 :: ns)

/-- `parseSignature` from `lib/signature`.  `none` models a thrown
signature error. -/
def parseSignature (s : String) : Option (List SignatureNode) :=
  parseAll (s.length + 1) s.data

mutual

/-- Rendering of a signature node back to characters: the type code, with
`a` followed by the rendering of its element(s), `(`/`)` around struct
children, `{`/`}` around dict-entry children. -/
def render : SignatureNode → List Char
  | .mk c children =>
    if c = 'a' then c :: renderList children
    else if c = '(' then '(' :: (renderList children ++ [')'])
    else if c = '{' then '{' :: (renderList children ++ ['}'])
    else [c]

/-- Concatenated rendering of a list of signature nodes. -/
def renderList : List SignatureNode → List Char
  | [] => []
  | n :: ns => render n ++ renderList ns

end

/-- Rendering as a `String`. -/
def renderString (ns : List SignatureNode) : String :=
  ⟨renderList ns⟩

/-! ## Put stream (`lib/put`) and `align` (`lib/align`) -/

/-- The little-endian bytes JS `(value >> 8*i) & 0xff` produces for a word of
`nbytes` bytes: JS bitwise operators work on the value modulo `2^32`. -/
def leBytes (nbytes : Nat) (v : Int) : List Nat :=
  (List.range nbytes).map fun i => ((v % (2 ^ 32)).toNat / 2 ^ (8 * i)) % 256

/-- The `Put` builder of `lib/put`, flattened to the byte list its `buffer()`
would produce, together with the `_offset` counter used by the marshallers. -/
structure PutStream where
  _offset : Nat
  bytes : List Nat

/-- `Put.put`: append a buffer (`_offset` is maintained separately by the
callers, exactly as in the source). -/
def PutStream.put (ps : PutStream) (buf : List Nat) : PutStream :=
  { ps with bytes := ps.bytes ++ buf }

/-- `Put.word8` -/
def PutStream.word8 (ps : PutStream) (v : Int) : PutStream :=
  { ps with bytes := ps.bytes ++ leBytes 1 v }

/-- `Put.word16le` -/
def PutStream.word16le (ps : PutStream) (v : Int) : PutStream :=
  { ps with bytes := ps.bytes ++ leBytes 2 v }

/-- `Put.word32le` -/
def PutStream.word32le (ps : PutStream) (v : Int) : PutStream :=
  { ps with bytes := ps.bytes ++ leBytes 4 v }

/-- `align` from `lib/align`: `pad = n - (ps._offset % n)`; if `pad` is `0` or
`n` do nothing, else append `pad` zero bytes (`Buffer.alloc` zero-fills) and
advance `_offset` by `pad`. -/
def align (ps : PutStream) (n : Nat) : PutStream :=
  let pad := n - ps._offset % n
  if pad = 0 ∨ pad = n then ps
  else { _offset := ps._offset + pad,
         bytes := (ps.put (List.replicate pad 0)).bytes }

/-! ## 64-bit integers: model of the Long.js objects used by `lib/marshallers`

A Long.js value stores 64 bits (as two 32-bit words) plus an `unsigned`
flag.  We keep the two words as naturals below `2^32`; every constructor
normalises.  Comparisons in the source (`gt`, `lt` against the `MAX_VALUE` /
`MIN_VALUE` / `MAX_UNSIGNED_VALUE` constants and `0`) are value comparisons
between longs of matching signedness, modelled on the represented integer. -/

def two32 : Nat := 4294967296
def two64 : Nat := 18446744073709551616

structure LongJS where
  lowbits : Nat
  highbits : Nat
  unsigned : Bool

/-- The 64 raw bits. -/
def LongJS.bits (l : LongJS) : Nat := l.highbits * two32 + l.lowbits

/-- The represented integer (two's-complement when signed). -/
def LongJS.toInt (l : LongJS) : Int :=
  if l.unsigned then ((l.bits % two64 : Nat) : Int)
  else if l.bits % two64 < 2 ^ 63 then ((l.bits % two64 : Nat) : Int)
  else ((l.bits % two64 : Nat) : Int) - (two64 : Int)

/-- The signed-int32 `low` property. -/
def LongJS.low (l : LongJS) : Int :=
  if l.lowbits % two32 < 2 ^ 31 then ((l.lowbits % two32 : Nat) : Int)
  else ((l.lowbits % two32 : Nat) : Int) - (two32 : Int)

/-- The signed-int32 `high` property. -/
def LongJS.high (l : LongJS) : Int :=
  if l.highbits % two32 < 2 ^ 31 then ((l.highbits % two32 : Nat) : Int)
  else ((l.highbits % two32 : Nat) : Int) - (two32 : Int)

/-- `Long.fromBits(low, high, unsigned)`: each word is coerced with `|0`
(i.e. taken modulo `2^32`) and stored. -/
def longFromBits (low high : Int) (u : Bool) : LongJS :=
  ⟨(low % (two32 : Int)).toNat, (high % (two32 : Int)).toNat, u⟩

/-- A long with the given 64 bits (wrapped modulo `2^64`). -/
def natToLong (m : Nat) (u : Bool) : LongJS :=
  ⟨m % two64 % two32, m % two64 / two32, u⟩

/-- `Long.fromNumber(value, unsigned)` for integral `value`: the bits are the
value modulo `2^64` (the source only calls it after a 53-bit range check, so
Long.js's clamping branches are not reachable). -/
def longFromNumber (v : Int) (u : Bool) : LongJS :=
  natToLong (v % (two64 : Int)).toNat u

/-- `Long.neg`: two's-complement negation, preserving the `unsigned` flag. -/
def LongJS.neg (l : LongJS) : LongJS :=
  natToLong (two64 - l.bits % two64) l.unsigned

/-! Digit rendering and parsing used to model `Long.fromString` /
`Long.toString` (radix 10 and 16; the source uppercases its input and the
comparison, so only uppercase hex digits occur). -/

def digitChar (d : Nat) : Char :=
  if d < 10 then Char.ofNat (48 + d)
  else if d < 16 then Char.ofNat (55 + d)
  else '?'

def digitVal (c : Char) : Option Nat :=
  if 48 ≤ c.toNat ∧ c.toNat ≤ 57 then some (c.toNat - 48)
  else if 65 ≤ c.toNat ∧ c.toNat ≤ 70 then some (c.toNat - 55)
  else none

/-- Little-endian digits of `n` in base `b` (`fuel ≥ n` suffices). -/
def natDigitsAux (b : Nat) : Nat → Nat → List Nat
  | _, 0 => []
  | 0, _ + 1 => []
  | fuel + 1, n + 1 => ((n + 1) % b) :: natDigitsAux b fuel ((n + 1) / b)

def natDigits (b n : Nat) : List Nat := natDigitsAux b n n

/-- Canonical base-`b` rendering of a natural (most significant first,
uppercase hex digits). -/
def renderNat (b n : Nat) : List Char :=
  if n = 0 then ['0'] else (natDigits b n).reverse.map digitChar

/-- One digit of a base-`b` parse. -/
def parseStep (b : Nat) (acc : Option Nat) (c : Char) : Option Nat :=
  acc.bind fun a =>
    (digitVal c).bind fun d =>
      if d < b then some (a * b + d) else none

/-- Parse a non-empty all-digit string in base `b`. -/
def parseNatChars (b : Nat) (chars : List Char) : Option Nat :=
  match chars with
  | [] => none
  | _ => chars.foldl (parseStep b) (some 0)

/-- `Long.fromString(str, unsigned, radix)`: optional leading `-` (negation is
two's-complement), then base-`radix` digits, wrapping modulo `2^64`.  Strings
Long.js quietly mangles (interior garbage) are rejected here; in the source
they are rejected one step later by the round-trip comparison, so `makeLong`
rejects the same strings. -/
def longFromString (chars : List Char) (u : Bool) (radix : Nat) : Option LongJS :=
  match chars with
  | [] => none
  | c :: rest =>
    if c = '-' then
      (parseNatChars radix rest).map fun m => (natToLong m u).neg
    else
      (parseNatChars radix chars).map fun m => natToLong m u

/-- Canonical signed rendering of an integer in base `b`. -/
def renderSigned (b : Nat) (v : Int) : List Char :=
  if v < 0 then '-' :: renderNat b v.natAbs else renderNat b v.toNat

/-- `Long.toString(radix)` (already uppercase, as after the source's
`.toUpperCase()`): the canonical rendering of the represented integer. -/
def longToString (l : LongJS) (radix : Nat) : List Char :=
  renderSigned radix l.toInt

/-- Little-endian recombination of a digit list (proof helper). -/
def ofDigitsLE (b : Nat) : List Nat → Nat
  | [] => 0
  | d :: ds => d + b * ofDigitsLE b ds

/-- Signed counterpart of `parseNatChars` (proof helper). -/
def parseSignedChars (b : Nat) (chars : List Char) : Option Int :=
  match chars with
  | [] => none
  | c :: rest =>
    if c = '-' then (parseNatChars b rest).map fun m => -(Int.ofNat m)
    else (parseNatChars b chars).map fun m => Int.ofNat m

/-- The canonical decimal string for an integer. -/
def renderDecInt (v : Int) : String :=
  ⟨renderSigned 10 v⟩

/-- The canonical `0x` / `-0x` hex string for an integer (uppercase
digits). -/
def renderHexInt (v : Int) : String :=
  if v < 0 then ⟨'-' :: '0' :: 'x' :: renderNat 16 v.natAbs⟩
  else ⟨'0' :: 'x' :: renderNat 16 v.toNat⟩

/-- JS `String.prototype.trim` whitespace (the subset relevant to ASCII
numeric strings). -/
def jsWhitespace (c : Char) : Bool :=
  c = ' ' ∨ c = '\t' ∨ c = '\n' ∨ c = '\r' ∨ c.toNat = 11 ∨ c.toNat = 12

def jsTrim (l : List Char) : List Char :=
  ((l.dropWhile jsWhitespace).reverse.dropWhile jsWhitespace).reverse

def jsUpper (l : List Char) : List Char := l.map Char.toUpper

def isDecDigit (c : Char) : Bool := 48 ≤ c.toNat ∧ c.toNat ≤ 57

/-- The regex `^0+(?=\d)` of `makeLong`: strip the longest run of leading
zeros that is followed by a decimal digit. -/
def stripLeadingZeros (l : List Char) : List Char :=
  let zs := l.takeWhile (fun c => c = '0')
  let rest := l.dropWhile (fun c => c = '0')
  if zs.isEmpty then l
  else
    match rest with
    | [] => ['0']
    | c :: _ =>
      if isDecDigit c then rest
      else if 2 ≤ zs.length then '0' :: rest
      else l

/-- The conversion and round-trip check at the end of `makeLong`'s string
branch: `Long.fromString`, then reject unless `toString` prints the same
string back (this is how out-of-range strings, which overflow quietly, are
caught). -/
def makeLongTail (body : List Char) (signed : Bool) (radix : Nat) :
    Option LongJS :=
  match longFromString body (!signed) radix with
  | none => none
  | some l => if longToString l radix = body then some l else none

/-- The string branch of `makeLong`: trim, uppercase, detect the `0x` / `-0x`
prefix, strip leading zeros, convert with `Long.fromString`, and reject the
value if it does not print back to the same string. -/
def makeLongString (s : String) (signed : Bool) : Option LongJS :=
  let t := jsUpper (jsTrim s.data)
  let hexPos := t.take 2 = ['0', 'X']
  let hexNeg := t.take 3 = ['-', '0', 'X']
  let radix : Nat := if hexPos ∨ hexNeg then 16 else 10
  let body0 := if hexPos then t.drop 2 else if hexNeg then '-' :: t.drop 3 else t
  makeLongTail (stripLeadingZeros body0) signed radix

/-- The inputs `makeLong` / `checkLong` dispatch on: a Long.js instance or
long-like `{low, high, unsigned}` triple (both normalised through
`fromBits`), a native number (integral; non-integral doubles are outside the
model), or a string. -/
inductive Num64Input where
  | longVal (low high : Int) (unsigned : Bool)
  | numVal (v : Int)
  | strVal (s : String)

/-- `makeLong` from `lib/marshallers`. -/
def makeLong : Num64Input → Bool → Option LongJS
  | .longVal low high u, _ => some (longFromBits low high u)
  | .numVal v, signed =>
    -- checkInteger + checkRange(±(2^53-1)) (lower bound 0 when unsigned)
    if signed then
      if v > 9007199254740991 ∨ v < -9007199254740991 then none
      else some (longFromNumber v (!signed))
    else
      if v > 9007199254740991 ∨ v < 0 then none
      else some (longFromNumber v (!signed))
  | .strVal s, signed => makeLongString s signed

def longMaxSigned : Int := 9223372036854775807
def longMinSigned : Int := -9223372036854775808
def longMaxUnsigned : Int := 18446744073709551615

/-- `checkLong` from `lib/marshallers`: build the long, then enforce that the
`unsigned` flag matches the field and that the value is inside the field's
64-bit range. -/
def checkLong (data : Num64Input) (signed : Bool) : Option LongJS :=
  match makeLong data signed with
  | none => none
  | some l =>
    if signed then
      if l.unsigned then none
      else if l.toInt > longMaxSigned ∨ l.toInt < longMinSigned then none
      else some l
    else
      if !l.unsigned then none
      else if l.toInt > longMaxUnsigned ∨ l.toInt < 0 then none
      else some l

/-- The `marshall` of the `"t"` / `"x"` cases of `MakeSimpleMarshaller`:
check, align to 8, write the `low` then `high` words little-endian. -/
def marshallLong (ps : PutStream) (data : Num64Input) (signed : Bool) :
    Option PutStream :=
  match checkLong data signed with
  | none => none
  | some l =>
    let ps1 := align ps 8
    let ps2 := (ps1.word32le l.low).word32le l.high
    some { ps2 with _offset := ps1._offset + 8 }

/-! ## Values and the simple marshallers (`MakeSimpleMarshaller`) -/

/-- The dynamic JS values fed to the marshaller: numbers (integral), strings,
booleans, arrays (used for D-Bus arrays, structs, dict entries and the
`[signature, value]` variant encoding) and Long.js-style 64-bit values. -/
inductive Value where
  | num (v : Int)
  | str (s : String)
  | boolean (b : Bool)
  | list (vs : List Value)
  | long (low high : Int) (unsigned : Bool)

/-- UTF-8 bytes of a string (`Buffer.from(s, "utf8")`). -/
def utf8Bytes (s : String) : List Nat :=
  s.toUTF8.toList.map (·.toNat)

/-- `data.indexOf("\0") !== -1` of `checkValidString`. -/
def hasNulChar (s : String) : Bool :=
  s.data.any fun c => c.toNat = 0

/-- The paren-counting loop of `checkValidSignature`: the error fires when
the count already exceeds 32 at the start of an iteration; `)` decrements
(possibly below zero, hence `Int`). -/
def sigNestingOk : Int → List Char → Bool
  | _, [] => true
  | cnt, c :: rest =>
    if cnt > 32 then false
    else
      sigNestingOk
        (if c = '(' then cnt + 1 else if c = ')' then cnt - 1 else cnt) rest

/-- `checkValidSignature` from `lib/marshallers`: length ≤ 255, nesting
bound, and the signature must parse. -/
def checkValidSignature (s : String) : Bool :=
  decide (s.length ≤ 255) && sigNestingOk 0 s.data && (parseSignature s).isSome

/-- The `"s"` / `"o"` marshaller: no-NUL string, align 4, u32 byte length,
UTF-8 bytes, NUL; offset advances by `5 + length`.  (There is no object-path
format validation in the source.) -/
def marshallStringLike (ps : PutStream) (data : Value) : Option PutStream :=
  match data with
  | .str s =>
    if hasNulChar s then none
    else
      let ps1 := align ps 4
      let buff := utf8Bytes s
      let ps2 := (((ps1.word32le buff.length).put buff).word8 0)
      some { ps2 with _offset := ps1._offset + 5 + buff.length }
  | _ => none

/-- ASCII bytes of a string (`Buffer.from(s, "ascii")` masks to 8 bits). -/
def asciiBytes (s : String) : List Nat :=
  s.data.map fun c => c.toNat % 256

/-- The `"g"` marshaller: valid-string and valid-signature checks, then
(unaligned) u8 length, ASCII bytes, NUL; offset advances by `2 + length`. -/
def marshallSignature (ps : PutStream) (data : Value) : Option PutStream :=
  match data with
  | .str s =>
    if hasNulChar s then none
    else if ¬ checkValidSignature s then none
    else
      let buff := asciiBytes s
      let ps2 := ((ps.word8 s.length).put buff).word8 0
      some { ps2 with _offset := ps._offset + 2 + buff.length }
  | _ => none

/-- The `"y"` marshaller: integer in `0..255`, one byte, no alignment. -/
def marshallByte (ps : PutStream) (data : Value) : Option PutStream :=
  match data with
  | .num v =>
    if v > 255 ∨ v < 0 then none
    else some { (ps.word8 v) with _offset := ps._offset + 1 }
  | _ => none

/-- The `"b"` marshaller: boolean (or the numbers 0/1), serialised as an
aligned u32 0/1 (`data ? 1 : 0`). -/
def marshallBool (ps : PutStream) (data : Value) : Option PutStream :=
  let val : Option Int :=
    match data with
    | .boolean b => some (if b then 1 else 0)
    | .num 0 => some 0
    | .num 1 => some 1
    | _ => none
  match val with
  | none => none
  | some v =>
    let ps1 := align ps 4
    some { ps1.word32le v with _offset := ps1._offset + 4 }

/-- The `"n"` marshaller: integer in `-0x8000..0x7fff`, align 2,
`writeInt16LE` (two's-complement little-endian). -/
def marshallInt16 (ps : PutStream) (data : Value) : Option PutStream :=
  match data with
  | .num v =>
    if v > 32767 ∨ v < -32768 then none
    else
      let ps1 := align ps 2
      some { ps1.put (leBytes 2 v) with _offset := ps1._offset + 2 }
  | _ => none

/-- The `"q"` marshaller: integer in `0..0xffff`, align 2, `word16le`. -/
def marshallUInt16 (ps : PutStream) (data : Value) : Option PutStream :=
  match data with
  | .num v =>
    if v > 65535 ∨ v < 0 then none
    else
      let ps1 := align ps 2
      some { ps1.word16le v with _offset := ps1._offset + 2 }
  | _ => none

/-- The `"i"` marshaller: integer in signed-32 range, align 4,
`writeInt32LE`. -/
def marshallInt32 (ps : PutStream) (data : Value) : Option PutStream :=
  match data with
  | .num v =>
    if v > 2147483647 ∨ v < -2147483648 then none
    else
      let ps1 := align ps 4
      some { ps1.put (leBytes 4 v) with _offset := ps1._offset + 4 }
  | _ => none

/-- The `"u"` marshaller: integer in `0..0xffffffff`, align 4, `word32le`. -/
def marshallUInt32 (ps : PutStream) (data : Value) : Option PutStream :=
  match data with
  | .num v =>
    if v > 4294967295 ∨ v < 0 then none
    else
      let ps1 := align ps 4
      some { ps1.word32le v with _offset := ps1._offset + 4 }
  | _ => none

/-- A `Value` viewed as a 64-bit marshaller input. -/
def Value.toNum64 : Value → Option Num64Input
  | .num v => some (.numVal v)
  | .str s => some (.strVal s)
  | .long low high u => some (.longVal low high u)
  | _ => none

/-- `MakeSimpleMarshaller(signature).marshall`, dispatching on the basic type
code.  The `"d"` (IEEE-754 double) case is outside this model — no claim
depends on it — and the unknown-type default throws. -/
def marshallSimple (c : Char) (ps : PutStream) (data : Value) : Option PutStream :=
  if c = 's' ∨ c = 'o' then marshallStringLike ps data
  else if c = 'g' then marshallSignature ps data
  else if c = 'y' then marshallByte ps data
  else if c = 'b' then marshallBool ps data
  else if c = 'n' then marshallInt16 ps data
  else if c = 'q' then marshallUInt16 ps data
  else if c = 'i' then marshallInt32 ps data
  else if c = 'u' then marshallUInt32 ps data
  else if c = 't' then (data.toNum64).bind fun d => marshallLong ps d false
  else if c = 'x' then (data.toNum64).bind fun d => marshallLong ps d true
  else none

/-! ## The recursive write driver

Modelled from the spec: `lib/marshall.js` is not among the sources; §4.2 of
the spec gives its contract (`marshall(signature, values, startOffset)`,
natural-alignment table, array length back-patching, variant as signature
string followed by the value) and the roadmap document quotes its variant
case (`write(ps, signatureEle, data[0]); write(ps, tree[0], data[1])`).
Basic types are delegated to the source's `MakeSimpleMarshaller` above.
The `fuel` argument only forces termination and is instantiated generously
by `marshallData`. -/

/-- Natural alignment of a type code (spec §4.2). -/
def alignmentOf (c : Char) : Nat :=
  if c = 'y' ∨ c = 'g' ∨ c = 'v' then 1
  else if c = 'n' ∨ c = 'q' then 2
  else if c = 'b' ∨ c = 'i' ∨ c = 'u' ∨ c = 's' ∨ c = 'o' ∨ c = 'h' ∨ c = 'a'
    then 4
  else 8

/-- Replace `repl.length` bytes of `bytes` starting at `idx` (the array
length back-patch; always an exact in-bounds overwrite where used). -/
def patchBytes (bytes : List Nat) (idx : Nat) (repl : List Nat) : List Nat :=
  bytes.take idx ++ repl ++ bytes.drop (idx + repl.length)

mutual

/-- Modelled from the spec: write one value under one signature node. -/
def writeOne : Nat → PutStream → SignatureNode → Value → Option PutStream
  | 0, _, _, _ => none
  | fuel + 1, ps, .mk c children, data =>
    if c = 'a' then
      match children, data with
      | [elemType], .list vs =>
        -- reserve a u32 length slot, align to the element, write elements,
        -- back-patch the length (exclusive of the slot and its padding)
        let ps1 := align ps 4
        let lenIdx := ps1.bytes.length
        let ps2 : PutStream :=
          { _offset := ps1._offset + 4, bytes := ps1.bytes ++ [0, 0, 0, 0] }
        let ps3 := align ps2 (alignmentOf elemType.type)
        (writeElems fuel ps3 elemType vs).bind fun ps4 =>
          some { ps4 with
                 bytes := patchBytes ps4.bytes lenIdx
                   (leBytes 4 (ps4._offset - ps3._offset)) }
      | _, _ => none
    else if c = '(' ∨ c = '{' then
      match data with
      | .list vs => writeMany fuel (align ps 8) children vs
      | _ => none
    else if c = 'v' then
      -- variant data is [signatureString, value]
      match data with
      | .list [.str sig, inner] =>
        (marshallSignature ps (.str sig)).bind fun ps1 =>
          match parseSignature sig with
          | some (t :: _) => writeOne fuel ps1 t inner
          | _ => none
      | _ => none
    else
      marshallSimple c ps data

/-- Modelled from the spec: write a value list pairwise against a node list
(struct bodies and the top level). -/
def writeMany : Nat → PutStream → List SignatureNode → List Value → Option PutStream
  | 0, _, _, _ => none
  | _ + 1, ps, [], [] => some ps
  | fuel + 1, ps, n :: ns, v :: vs =>
    (writeOne fuel ps n v).bind fun ps' => writeMany fuel ps' ns vs
  | _ + 1, _, _, _ => none

/-- Modelled from the spec: write array elements under the element type. -/
def writeElems : Nat → PutStream → SignatureNode → List Value → Option PutStream
  | 0, _, _, _ => none
  | _ + 1, ps, _, [] => some ps
  | fuel + 1, ps, t, v :: vs =>
    (writeOne fuel ps t v).bind fun ps' => writeElems fuel ps' t vs

end

mutual

/-- Constructor count of a value (used only to compute a sufficient fuel). -/
def valueSize : Value → Nat
  | .list vs => 1 + valueSizeList vs
  | _ => 1

def valueSizeList : List Value → Nat
  | [] => 0
  | v :: vs => valueSize v + valueSizeList vs

end

/-- Modelled from the spec: `marshall(signature, data, startOffset)` from
`lib/marshall.js` — parse the signature and write the values, returning the
appended bytes. -/
def marshallData (signature : String) (values : List Value)
    (startOffset : Nat) : Option (List Nat) :=
  match parseSignature signature with
  | none => none
  | some nodes =>
    (writeMany (4 * (valueSizeList values + signature.length + 4))
        ⟨startOffset, []⟩ nodes values).map
      fun ps => ps.bytes

/-! ## Message codec (`marshall` of `lib/message`, in `lib/marshallers`) -/

/-- A D-Bus message as the codec sees it (`lib/constants` field names). -/
structure Message where
  serial : Option Nat
  type : Option Nat
  flags : Option Nat
  path : Option String
  iface : Option String
  member : Option String
  errorName : Option String
  replySerial : Option Nat
  destination : Option String
  sender : Option String
  signature : Option String
  body : Option (List Value)

/-- One `[fieldId, [signature, value]]` entry of the `a(yv)` header array. -/
def fieldEntry (id : Nat) (sig : String) (v : Value) : Value :=
  .list [.num id, .list [.str sig, v]]

/-- A string-valued header field; skipped when absent or empty (JS
truthiness of the field value). -/
def strField (id : Nat) (sig : String) : Option String → List Value
  | none => []
  | some s => if s = "" then [] else [fieldEntry id sig (.str s)]

/-- A number-valued header field; skipped when absent or zero. -/
def natField (id : Nat) (sig : String) : Option Nat → List Value
  | none => []
  | some v => if v = 0 then [] else [fieldEntry id sig (.num v)]

/-- The `constants.headerTypeName.forEach` loop of the codec's `marshall`:
fields in declared enumeration order (path, interface, member, errorName,
replySerial, destination, sender, signature) with their declared
signatures. -/
def buildFields (m : Message) : List Value :=
  strField 1 "o" m.path ++ strField 2 "s" m.iface ++ strField 3 "s" m.member ++
  strField 4 "s" m.errorName ++ natField 5 "u" m.replySerial ++
  strField 6 "s" m.destination ++ strField 7 "s" m.sender ++
  strField 8 "g" m.signature

/-- The message codec's `marshall` (source, `lib/marshallers` message-codec
section): serial required, body marshalled when signature and body are both
truthy, 12-byte fixed header (`yyyyuu`), header-field array `a(yv)` at
offset 12, total header length rounded up to 8, body copied at the aligned
offset into a zero-filled buffer. -/
def marshallMessage (m : Message) : Option (List Nat) :=
  match m.serial with
  | none => none
  | some serial =>
    if serial = 0 then none
    else
      let flags := m.flags.getD 0
      let type := match m.type with
        | none => 1
        | some t => if t = 0 then 1 else t
      let bodyRes : Option (Nat × List Nat) :=
        match m.signature, m.body with
        | some sig, some body =>
          if sig = "" then some (0, [])
          else (marshallData sig body 0).map fun bs => (bs.length, bs)
        | _, _ => some (0, [])
      bodyRes.bind fun bodyPair =>
        (marshallData "yyyyuu"
            [.num 108, .num type, .num flags, .num 1,
             .num bodyPair.1, .num serial] 0).bind fun headerBuff =>
          (marshallData "a(yv)" [.list (buildFields m)] 12).bind fun fieldsBuff =>
            let headerLenAligned :=
              (headerBuff.length + fieldsBuff.length + 7) / 8 * 8
            let messageLen := headerLenAligned + bodyPair.1
            let buf0 := List.replicate messageLen 0
            let buf1 := patchBytes buf0 0 headerBuff
            let buf2 := patchBytes buf1 headerBuff.length fieldsBuff
            some (if bodyPair.1 > 0
              then patchBytes buf2 headerLenAligned bodyPair.2
              else buf2)

/-! ## Introspection proxy (`DBusInterface` in `lib/marshallers`) -/

structure MethodInfo where
  name : String
  inSignature : String
  outSignature : String

structure PropertyInfo where
  name : String
  type : String

/-- A proxy interface: name, method and property tables, and the
back-references (`parent.service.name`, `parent.name`). -/
structure ProxyInterface where
  serviceName : String
  objectPath : String
  name : String
  methods : List (String × MethodInfo)
  properties : List (String × PropertyInfo)

/-- The message a proxy operation hands to `bus.invoke`. -/
structure CallMessage where
  destination : String
  path : String
  iface : String
  member : String
  signature : Option String
  body : Option (List Value)

/-- What a proxy operation does: call `bus.invoke` with a message, or
complete with a `DBusError` of the given name without any bus traffic. -/
inductive CallOutcome where
  | invoked (msg : CallMessage)
  | errored (errorName : String)

/-- `DBusInterface.call`: build the method-call message (adding signature
and body only when the method is known with a nonempty in-signature) and
always invoke. -/
def ProxyInterface.call (i : ProxyInterface) (methodName : String)
    (args : List Value) : CallOutcome :=
  let base : CallMessage :=
    ⟨i.serviceName, i.objectPath, i.name, methodName, none, none⟩
  match i.methods.lookup methodName with
  | some mi =>
    if mi.inSignature ≠ "" then
      .invoked { base with signature := some mi.inSignature, body := some args }
    else .invoked base
  | none => .invoked base

/-- `DBusInterface.getProperty`: always invoke `Properties.Get` with
signature `ss`. -/
def ProxyInterface.getProperty (i : ProxyInterface) (propertyName : String) :
    CallOutcome :=
  .invoked ⟨i.serviceName, i.objectPath, "org.freedesktop.DBus.Properties",
    "Get", some "ss", some [.str i.name, .str propertyName]⟩

/-- `DBusInterface.setProperty`: unknown property completes with
`UnknownProperty` and no invoke; otherwise invoke `Properties.Set` with
signature `ssv` and the property's declared type in the variant. -/
def ProxyInterface.setProperty (i : ProxyInterface) (propertyName : String)
    (value : Value) : CallOutcome :=
  match i.properties.lookup propertyName with
  | none => .errored "org.freedesktop.DBus.Error.UnknownProperty"
  | some pi =>
    .invoked ⟨i.serviceName, i.objectPath, "org.freedesktop.DBus.Properties",
      "Set", some "ssv",
      some [.str i.name, .str propertyName, .list [.str pi.type, value]]⟩

/-- How `getProperty` hands the `Get` reply to the callback. -/
inductive GetPropResult where
  | single (v : Option Value)
  | multi (vs : List Value)

/-- The reply handler inside `DBusInterface.getProperty`: the variant result
is `[signature, value]`; the value list is unwrapped to its first element
exactly when the signature string has length 1. -/
def getPropertyDispatch (signature : String) (value : List Value) :
    GetPropResult :=
  if signature.length = 1 then .single value.head? else .multi value

/-! ## Signal listeners (`DBusInterface.on` / `.off`)

The bus side (`bus.js`) is not among the sources.  Modelled from the spec:
`bus.signals` is an event emitter keyed by the mangled
`(path, interface, member)` string; `bus.addMatch` / `bus.removeMatch`
invoke the broker's `AddMatch` / `RemoveMatch` and resolve on its return
(modelled as immediate success, with the callback run synchronously). -/

structure BusModel where
  signalListeners : List (String × List Nat)
  addMatchCalls : List String
  removeMatchCalls : List String

def emptyBus : BusModel := ⟨[], [], []⟩

/-- Modelled from the spec: the signal-router key for
`(path, interface, member)` (any injective mangling serves). -/
def mangle (path iface member : String) : String :=
  path ++ "\x00" ++ iface ++ "\x00" ++ member

/-- `getMatchRule` from `lib/marshallers`. -/
def getMatchRule (objectPath interfaceName signalName : String) : String :=
  "type='signal',path='" ++ objectPath ++ "',interface='" ++ interfaceName ++
    "',member='" ++ signalName ++ "'"

def busListeners (b : BusModel) (key : String) : List Nat :=
  (b.signalListeners.lookup key).getD []

/-- `bus.signals.on`: append a listener under the key. -/
def busOn (b : BusModel) (key : String) (h : Nat) : BusModel :=
  { b with signalListeners :=
      (key, busListeners b key ++ [h]) ::
        b.signalListeners.filter fun kv => kv.1 ≠ key }

/-- `bus.signals.removeListener`: remove one occurrence of the listener. -/
def busRemoveListener (b : BusModel) (key : String) (h : Nat) : BusModel :=
  { b with signalListeners :=
      (key, (busListeners b key).erase h) ::
        b.signalListeners.filter fun kv => kv.1 ≠ key }

/-- Modelled from the spec: `bus.addMatch` performs the broker `AddMatch`
call (recorded) and succeeds. -/
def busAddMatch (b : BusModel) (rule : String) : BusModel :=
  { b with addMatchCalls := b.addMatchCalls ++ [rule] }

/-- Modelled from the spec: `bus.removeMatch` performs the broker
`RemoveMatch` call (recorded) and succeeds. -/
def busRemoveMatch (b : BusModel) (rule : String) : BusModel :=
  { b with removeMatchCalls := b.removeMatchCalls ++ [rule] }

/-- The per-interface state `DBusInterface.on`/`off` use: the bus, plus the
`handlerMap` of handlers that already have a wrapped closure (the wrapper is
identified with its handler, which the map makes one-to-one). -/
structure SignalState where
  bus : BusModel
  wrapperMap : List Nat

/-- `DBusInterface.on`: ensure a wrapper exists; if the key has no listeners
yet, call `bus.addMatch` and add the listener in its success callback, else
just add the listener. -/
def signalOn (objectPath ifaceName : String) (st : SignalState)
    (signalName : String) (h : Nat) : SignalState :=
  let key := mangle objectPath ifaceName signalName
  let wmap := if h ∈ st.wrapperMap then st.wrapperMap else st.wrapperMap ++ [h]
  if (busListeners st.bus key).length = 0 then
    let rule := getMatchRule objectPath ifaceName signalName
    ⟨busOn (busAddMatch st.bus rule) key h, wmap⟩
  else
    ⟨busOn st.bus key h, wmap⟩

/-- `DBusInterface.off`: unknown handlers are ignored; remove the listener,
and when none remain call `bus.removeMatch`, whose success callback deletes
the wrapper. -/
def signalOff (objectPath ifaceName : String) (st : SignalState)
    (signalName : String) (h : Nat) : SignalState :=
  let key := mangle objectPath ifaceName signalName
  if h ∈ st.wrapperMap then
    let bus1 := busRemoveListener st.bus key h
    if (busListeners bus1 key).length = 0 then
      let rule := getMatchRule objectPath ifaceName signalName
      ⟨busRemoveMatch bus1 rule, st.wrapperMap.erase h⟩
    else
      ⟨bus1, st.wrapperMap⟩
  else st

/-! # Theorems -/

/-! ## C1, C2, C10: the signature parser -/

theorem parseOne_render (fuel : Nat) :
    (∀ c rest n r, parseOne fuel c rest = some (n, r) →
      render n ++ r = c :: rest) ∧
    (∀ close rest ns r, parseChildren fuel close rest = some (ns, r) →
      renderList ns ++ close :: r = rest) := by
  induction fuel with
  | zero => exact ⟨fun _ _ _ _ h => by simp [parseOne] at h,
                  fun _ _ _ _ h => by simp [parseChildren] at h⟩
  | succ fuel ih =>
    constructor
    · intro c rest n r h
      simp only [parseOne] at h
      split at h
      · simp at h
      · split at h
        next ha =>
          split at h
          · simp at h
          next e rest' =>
            rw [Option.bind_eq_some] at h
            obtain ⟨⟨n', r'⟩, hp, h⟩ := h
            simp only [Option.some.injEq, Prod.mk.injEq] at h
            obtain ⟨hn, hr⟩ := h
            rw [← hn, ← hr, ha]
            have hone := ih.1 e rest' n' r' hp
            simp [render, renderList, hone]
        next ha =>
          split at h
          next hb =>
            rw [Option.bind_eq_some] at h
            obtain ⟨⟨cs, r'⟩, hc, h⟩ := h
            simp only [Option.some.injEq, Prod.mk.injEq] at h
            obtain ⟨hn, hr⟩ := h
            rw [← hn, ← hr]
            have hrender := ih.2 (bracketPair c) rest cs r' hc
            rcases hb with hb | hb
            · subst hb
              simp only [bracketPair, reduceIte] at hrender
              simp [render, ← hrender]
            · subst hb
              simp only [bracketPair, reduceIte] at hrender
              simp [render, ← hrender]
          next hb =>
            simp only [Option.some.injEq, Prod.mk.injEq] at h
            obtain ⟨hn, hr⟩ := h
            rw [← hn, ← hr]
            have hnp : ¬ c = '(' := fun hc => hb (Or.inl hc)
            have hnc : ¬ c = '{' := fun hc => hb (Or.inr hc)
            simp [render, renderList, ha, hnp, hnc]
    · intro close rest ns r h
      simp only [parseChildren] at h
      split at h
      · simp at h
      next e rest' =>
        split at h
        next he =>
          simp only [Option.some.injEq, Prod.mk.injEq] at h
          obtain ⟨hn, hr⟩ := h
          rw [← hn, ← hr, he]
          simp [renderList]
        next he =>
          rw [Option.bind_eq_some] at h
          obtain ⟨⟨n', r'⟩, hp, h⟩ := h
          rw [Option.bind_eq_some] at h
          obtain ⟨⟨ns', r''⟩, hq, h⟩ := h
          simp only [Option.some.injEq, Prod.mk.injEq] at h
          obtain ⟨hn, hr⟩ := h
          rw [← hn, ← hr]
          have h1 := ih.1 e rest' n' r' hp
          have h2 := ih.2 close r' ns' r'' hq
          calc renderList (n' :: ns') ++ close :: r''
              = render n' ++ (renderList ns' ++ close :: r'') := by
                simp [renderList]
            _ = render n' ++ r' := by rw [h2]
            _ = e :: rest' := h1

theorem parseAll_render (fuel : Nat) (rest : List Char)
    (ns : List SignatureNode) (h : parseAll fuel rest = some ns) :
    renderList ns = rest := by
  induction fuel generalizing rest ns with
  | zero => simp [parseAll] at h
  | succ fuel ih =>
    simp only [parseAll] at h
    split at h
    · simp only [Option.some.injEq] at h
      rw [← h]; rfl
    next c r =>
      rw [Option.bind_eq_some] at h
      obtain ⟨⟨n, r'⟩, hp, h⟩ := h
      rw [Option.bind_eq_some] at h
      obtain ⟨ns', hq, h⟩ := h
      simp only [Option.some.injEq] at h
      rw [← h]
      have h1 := (parseOne_render fuel).1 c r n r' hp
      have h2 := ih r' ns' hq
      simp [renderList, h2, h1]

/-- C1: when `parseSignature` succeeds, the rendering of the returned tree
is the input string; otherwise it fails (returns `none`, modelling the
thrown signature error). -/
theorem parseSignature_render (s : String) (ns : List SignatureNode)
    (h : parseSignature s = some ns) : renderString ns = s := by
  have := parseAll_render (s.length + 1) s.data ns h
  unfold renderString
  cases s with
  | mk data => exact congrArg String.mk this

/-- Witness for C1 at the concrete signature `"a{sv}"`. -/
theorem parseSignature_render_witness :
    renderString [.mk 'a' [.mk '{' [.mk 's' [], .mk 'v' []]]] = "a{sv}" :=
  parseSignature_render "a{sv}" _ rfl

/-- C2 counterexample: the claim says `parse("a{vi}")` (dict-entry key `v` is
not a basic type) and `parse("{si}")` (dict entry not inside an array) both
fail with `BadDictEntry`; in fact `parseSignature` succeeds on `"a{vi}"`,
returning the dict-entry tree. -/
theorem parseSignature_accepts_nonbasic_dict_key :
    parseSignature "a{vi}" =
      some [.mk 'a' [.mk '{' [.mk 'v' [], .mk 'i' []]]] := rfl

/-- C2 amended: `parseOne` performs no dict-entry validation at all: a dict
entry whose key is not a basic type parses successfully, and a dict entry
that is not the element of an array parses successfully as a top-level
type. -/
theorem parseSignature_no_dict_entry_validation :
    parseSignature "{si}" = some [.mk '{' [.mk 's' [], .mk 'i' []]] ∧
    parseSignature "a{vi}" =
      some [.mk 'a' [.mk '{' [.mk 'v' [], .mk 'i' []]]] :=
  ⟨rfl, rfl⟩

/-- C10: the parser accepts stray container-closing characters as standalone
types: `parse(")")` and `parse("}")` succeed with a childless node whose type
is the closing bracket, and `parseOne` treats `')'` and `'}'` as leaf types
wherever they occur. -/
theorem parseSignature_accepts_stray_closers :
    parseSignature ")" = some [.mk ')' []] ∧
    parseSignature "\x7d" = some [.mk '}' []] ∧
    (∀ fuel rest, parseOne (fuel + 1) ')' rest = some (.mk ')' [], rest)) ∧
    (∀ fuel rest, parseOne (fuel + 1) '}' rest = some (.mk '}' [], rest)) := by
  refine ⟨rfl, rfl, ?_, ?_⟩ <;> intro fuel rest <;> simp [parseOne, knownType]

/-! ## C3: alignment -/

/-- C3: for an alignment `n ∈ {1,2,4,8}`, `align` appends exactly
`(n - offset % n) % n` bytes, all of them zero, and afterwards the offset is
the least multiple of `n` that is `≥` the old offset; nothing is appended
when the offset is already a multiple of `n`. -/
theorem align_spec (ps : PutStream) (n : Nat)
    (h : n = 1 ∨ n = 2 ∨ n = 4 ∨ n = 8) :
    (align ps n).bytes =
      ps.bytes ++ List.replicate ((n - ps._offset % n) % n) 0 ∧
    (∀ b ∈ (align ps n).bytes.drop ps.bytes.length, b = 0) ∧
    (align ps n)._offset % n = 0 ∧
    ps._offset ≤ (align ps n)._offset ∧
    (align ps n)._offset < ps._offset + n ∧
    (ps._offset % n = 0 → align ps n = ps) := by
  have hn : 0 < n := by rcases h with h | h | h | h <;> omega
  have hlt : ps._offset % n < n := Nat.mod_lt _ hn
  by_cases h0 : ps._offset % n = 0
  · have hpad : n - ps._offset % n = n := by omega
    have heq : align ps n = ps := by
      unfold align
      simp [hpad]
    refine ⟨?_, ?_, ?_, ?_, ?_, fun _ => heq⟩
    · rw [heq]; simp [h0, Nat.sub_zero, Nat.mod_self]
    · rw [heq]; simp
    · rw [heq]; exact h0
    · rw [heq]
    · rw [heq]; omega
  · have hpadne : n - ps._offset % n ≠ n := by omega
    have hpadne0 : n - ps._offset % n ≠ 0 := by omega
    have halign : align ps n =
        { _offset := ps._offset + (n - ps._offset % n),
          bytes := ps.bytes ++ List.replicate (n - ps._offset % n) 0 } := by
      unfold align
      simp [hpadne, hpadne0, PutStream.put]
    have hmod : (n - ps._offset % n) % n = n - ps._offset % n :=
      Nat.mod_eq_of_lt (by omega)
    refine ⟨?_, ?_, ?_, ?_, ?_, fun hc => absurd hc h0⟩
    · rw [halign, hmod]
    · intro b hb
      rw [halign] at hb
      simp only [List.drop_append_of_le_length (le_refl _),
        List.drop_length, List.nil_append] at hb
      exact List.eq_of_mem_replicate hb
    · rw [halign]
      show (ps._offset + (n - ps._offset % n)) % n = 0
      have hdm := Nat.div_add_mod ps._offset n
      have hexp : n * (ps._offset / n + 1) = n * (ps._offset / n) + n := by ring
      have heq : ps._offset + (n - ps._offset % n) = n * (ps._offset / n + 1) := by
        omega
      simp only [heq, Nat.mul_mod_right]
    · rw [halign]
      show ps._offset ≤ ps._offset + (n - ps._offset % n)
      omega
    · rw [halign]
      show ps._offset + (n - ps._offset % n) < ps._offset + n
      omega

/-- Witness for C3 at offset 3, alignment 4: one zero byte is appended and
the offset advances to 4. -/
theorem align_spec_witness :
    (align ⟨3, []⟩ 4).bytes = [] ++ List.replicate ((4 - 3 % 4) % 4) 0 ∧
    (align ⟨3, []⟩ 4)._offset % 4 = 0 := by
  have h := align_spec ⟨3, []⟩ 4 (by omega)
  exact ⟨h.1, h.2.2.1⟩

/-! ## C4: the issue-128 int16 scenario -/

/-- C4: marshalling `[10, 1000]` under signature `"nn"` from offset 0 yields
exactly `0a 00 e8 03` — each int16 little-endian with no padding between
them. -/
theorem marshall_nn_10_1000 :
    marshallData "nn" [.num 10, .num 1000] 0 = some [0x0a, 0x00, 0xe8, 0x03] :=
  rfl

/-! ## C7: getProperty unwrapping -/

/-- C7 counterexample: `"ai"` is a single complete top-level type, but the
`Get` reply handler does not unwrap it — the unmodified value list reaches
the callback, because the code tests `signature.length === 1` (character
count), not the number of top-level types. -/
theorem getProperty_no_unwrap_multichar :
    (parseSignature "ai").map List.length = some 1 ∧
    getPropertyDispatch "ai" [.num 7] = .multi [.num 7] :=
  ⟨rfl, rfl⟩

/-- C7 amended: the variant value is unwrapped to its first element exactly
when the variant signature is a single character; any longer signature —
even one denoting a single top-level type such as `"ai"` or `"a{sv}"` —
passes the unmodified value list to the callback. -/
theorem getProperty_unwrap_single_char (sig : String) (value : List Value) :
    (sig.length = 1 → getPropertyDispatch sig value = .single value.head?) ∧
    (sig.length ≠ 1 → getPropertyDispatch sig value = .multi value) := by
  constructor <;> intro h <;> simp [getPropertyDispatch, h]

/-- Witness for C7 (amended) at `"u"` (unwrapped) and `"ai"` (not). -/
theorem getProperty_unwrap_single_char_witness :
    getPropertyDispatch "u" [.num 42] = .single (some (.num 42)) ∧
    getPropertyDispatch "ai" [.num 7, .num 8] = .multi [.num 7, .num 8] :=
  ⟨(getProperty_unwrap_single_char "u" [.num 42]).1 rfl,
   (getProperty_unwrap_single_char "ai" [.num 7, .num 8]).2 (by decide)⟩

/-! ## C8: unknown method / property on the proxy -/

/-- C8 counterexample: `call()` with a method name absent from the method
table does not complete with `UnknownMethod` — it still calls `bus.invoke`,
with a message carrying no signature or body. -/
theorem call_unknown_method_still_invokes :
    ProxyInterface.call
        ⟨"com.test.Service", "/test/path", "com.test.Interface", [], []⟩
        "Foo" [] =
      .invoked ⟨"com.test.Service", "/test/path", "com.test.Interface",
        "Foo", none, none⟩ :=
  rfl

/-- C8 amended: `call()` and `getProperty()` never consult their tables to
reject: they always call `bus.invoke` (an unknown method merely yields a
message without signature and body).  Only `setProperty()` checks its table:
an unknown property completes with
`org.freedesktop.DBus.Error.UnknownProperty` and `bus.invoke` is not called;
a known property is always invoked. -/
theorem proxy_lookup_behaviour :
    (∀ (i : ProxyInterface) (m : String) (args : List Value),
      ∃ msg, i.call m args = .invoked msg) ∧
    (∀ (i : ProxyInterface) (p : String),
      ∃ msg, i.getProperty p = .invoked msg) ∧
    (∀ (i : ProxyInterface) (p : String) (v : Value),
      i.properties.lookup p = none →
        i.setProperty p v =
          .errored "org.freedesktop.DBus.Error.UnknownProperty") ∧
    (∀ (i : ProxyInterface) (p : String) (v : Value) (info : PropertyInfo),
      i.properties.lookup p = some info →
        ∃ msg, i.setProperty p v = .invoked msg) := by
  refine ⟨?_, ?_, ?_, ?_⟩
  · intro i m args
    unfold ProxyInterface.call
    rcases hl : i.methods.lookup m with _ | mi
    · exact ⟨_, rfl⟩
    · by_cases hs : mi.inSignature ≠ "" <;> simp [hs]
  · intro i p
    exact ⟨_, rfl⟩
  · intro i p v hl
    unfold ProxyInterface.setProperty
    rw [hl]
  · intro i p v info hl
    unfold ProxyInterface.setProperty
    rw [hl]
    exact ⟨_, rfl⟩

/-- Witness for C8 (amended): a proxy with empty tables still invokes an
unknown method, and rejects an unknown property without invoking. -/
theorem proxy_lookup_behaviour_witness :
    (∃ msg, ProxyInterface.call ⟨"s", "/p", "I", [], []⟩ "Foo" [] =
      .invoked msg) ∧
    ProxyInterface.setProperty ⟨"s", "/p", "I", [], []⟩ "P" (.num 0) =
      .errored "org.freedesktop.DBus.Error.UnknownProperty" :=
  ⟨proxy_lookup_behaviour.1 ⟨"s", "/p", "I", [], []⟩ "Foo" [],
   proxy_lookup_behaviour.2.2.1 ⟨"s", "/p", "I", [], []⟩ "P" (.num 0) rfl⟩

/-! ## C9: signal listener / match-rule refcounting -/

/-- C9: from a fresh state, registering two distinct listeners for the same
signal performs exactly one broker `AddMatch` with the rule
`type='signal',path=…,interface=…,member=…`; removing one listener performs
no `RemoveMatch`; removing the second performs exactly one `RemoveMatch`
with the same rule. -/
theorem signal_match_refcount (path iface member : String) (h1 h2 : Nat)
    (hne : h1 ≠ h2) :
    (signalOn path iface (signalOn path iface ⟨emptyBus, []⟩ member h1)
        member h2).bus.addMatchCalls = [getMatchRule path iface member] ∧
    (signalOn path iface (signalOn path iface ⟨emptyBus, []⟩ member h1)
        member h2).bus.removeMatchCalls = [] ∧
    (signalOff path iface
        (signalOn path iface (signalOn path iface ⟨emptyBus, []⟩ member h1)
          member h2) member h1).bus.addMatchCalls =
      [getMatchRule path iface member] ∧
    (signalOff path iface
        (signalOn path iface (signalOn path iface ⟨emptyBus, []⟩ member h1)
          member h2) member h1).bus.removeMatchCalls = [] ∧
    (signalOff path iface
        (signalOff path iface
          (signalOn path iface (signalOn path iface ⟨emptyBus, []⟩ member h1)
            member h2) member h1) member h2).bus.addMatchCalls =
      [getMatchRule path iface member] ∧
    (signalOff path iface
        (signalOff path iface
          (signalOn path iface (signalOn path iface ⟨emptyBus, []⟩ member h1)
            member h2) member h1) member h2).bus.removeMatchCalls =
      [getMatchRule path iface member] := by
  set st1 := signalOn path iface ⟨emptyBus, []⟩ member h1 with hst1def
  set st2 := signalOn path iface st1 member h2 with hst2def
  set st3 := signalOff path iface st2 member h1 with hst3def
  set st4 := signalOff path iface st3 member h2 with hst4def
  set rule := getMatchRule path iface member with hruledef
  have hst1 : st1 = ⟨⟨[(mangle path iface member, [h1])],
      [rule], []⟩, [h1]⟩ := by
    show signalOn path iface ⟨emptyBus, []⟩ member h1 = _
    simp [signalOn, busListeners, busOn, busAddMatch, emptyBus, rule]
  have hst2 : st2 = ⟨⟨[(mangle path iface member, [h1, h2])],
      [rule], []⟩, [h1, h2]⟩ := by
    show signalOn path iface st1 member h2 = _
    rw [hst1]
    simp [signalOn, busListeners, busOn, busAddMatch, hne, Ne.symm hne]
  have hst3 : st3 = ⟨⟨[(mangle path iface member, [h2])],
      [rule], []⟩, [h1, h2]⟩ := by
    show signalOff path iface st2 member h1 = _
    rw [hst2]
    simp [signalOff, busListeners, busRemoveListener, busRemoveMatch,
      List.erase_cons]
  have hst4 : st4 = ⟨⟨[(mangle path iface member, [])],
      [rule], [rule]⟩, [h1]⟩ := by
    show signalOff path iface st3 member h2 = _
    rw [hst3]
    simp [signalOff, busListeners, busRemoveListener, busRemoveMatch,
      List.erase_cons, hne, Ne.symm hne]
  rw [hst2, hst3, hst4]
  exact ⟨rfl, rfl, rfl, rfl, rfl, rfl⟩

/-- Witness for C9 at the spec's scenario 6 (`StateChanged` on `/svc` of
`com.x.Svc`, listeners 1 and 2). -/
theorem signal_match_refcount_witness :
    (signalOff "/svc" "com.x.Svc"
      (signalOff "/svc" "com.x.Svc"
        (signalOn "/svc" "com.x.Svc"
          (signalOn "/svc" "com.x.Svc" ⟨emptyBus, []⟩ "StateChanged" 1)
          "StateChanged" 2)
        "StateChanged" 1)
      "StateChanged" 2).bus.removeMatchCalls =
      ["type='signal',path='/svc',interface='com.x.Svc',member='StateChanged'"] :=
  (signal_match_refcount "/svc" "com.x.Svc" "StateChanged" 1 2
    (by decide)).2.2.2.2.2

/-! ## C5 support: digits, rendering and parsing -/

theorem digitVal_digitChar : ∀ d, d < 16 → digitVal (digitChar d) = some d := by
  decide

theorem digitChar_inj16 :
    ∀ d1, d1 < 16 → ∀ d2, d2 < 16 → digitChar d1 = digitChar d2 → d1 = d2 := by
  decide

theorem digitChar_not_ws : ∀ d, d < 16 → jsWhitespace (digitChar d) = false := by
  decide

theorem digitChar_toUpper : ∀ d, d < 16 → (digitChar d).toUpper = digitChar d := by
  decide

theorem digitChar_ne_dash : ∀ d, d < 16 → digitChar d ≠ '-' := by
  decide

theorem digitChar_ne_X : ∀ d, d < 10 → digitChar d ≠ 'X' := by
  decide

theorem digitChar_ne_zeroX : ∀ d, d < 16 → digitChar d ≠ 'X' ∨ d = 33 := by
  decide

theorem natDigitsAux_lt (b : Nat) (hb : 2 ≤ b) :
    ∀ fuel n d, d ∈ natDigitsAux b fuel n → d < b := by
  intro fuel
  induction fuel with
  | zero =>
    intro n d hd
    cases n <;> simp [natDigitsAux] at hd
  | succ fuel ih =>
    intro n d hd
    cases n with
    | zero => simp [natDigitsAux] at hd
    | succ m =>
      simp only [natDigitsAux, List.mem_cons] at hd
      rcases hd with hd | hd
      · rw [hd]; exact Nat.mod_lt _ (by omega)
      · exact ih _ _ hd

theorem ofDigitsLE_natDigitsAux (b : Nat) (hb : 2 ≤ b) :
    ∀ fuel n, n ≤ fuel → ofDigitsLE b (natDigitsAux b fuel n) = n := by
  intro fuel
  induction fuel with
  | zero =>
    intro n hn
    interval_cases n
    simp [natDigitsAux, ofDigitsLE]
  | succ fuel ih =>
    intro n hn
    cases n with
    | zero => simp [natDigitsAux, ofDigitsLE]
    | succ m =>
      have hdiv : (m + 1) / b < m + 1 := Nat.div_lt_self (by omega) (by omega)
      have hrec := ih ((m + 1) / b) (by omega)
      simp only [natDigitsAux, ofDigitsLE, hrec]
      exact Nat.mod_add_div _ _

theorem parse_fold_digits (b : Nat) (hb : 2 ≤ b) (hb16 : b ≤ 16) :
    ∀ (ds : List Nat) (a : Nat), (∀ d ∈ ds, d < b) →
      List.foldl (parseStep b) (some a) (ds.map digitChar) =
        some (List.foldl (fun x d => x * b + d) a ds) := by
  intro ds
  induction ds with
  | nil => intro a _; rfl
  | cons d ds ih =>
    intro a hall
    have hd : d < b := hall d (List.mem_cons_self d ds)
    have hstep : parseStep b (some a) (digitChar d) = some (a * b + d) := by
      simp [parseStep, digitVal_digitChar d (by omega), hd]
    simp only [List.map_cons, List.foldl_cons, hstep]
    exact ih (a * b + d) fun e he => hall e (List.mem_cons_of_mem _ he)

theorem foldl_msb_reverse (b : Nat) :
    ∀ ds : List Nat,
      List.foldl (fun x d => x * b + d) 0 ds.reverse = ofDigitsLE b ds := by
  intro ds
  induction ds with
  | nil => rfl
  | cons d ds ih =>
    simp only [List.reverse_cons, List.foldl_append, ih, List.foldl_cons,
      List.foldl_nil, ofDigitsLE]
    ring

theorem natDigits_cons (b m : Nat) :
    natDigits b (m + 1) = ((m + 1) % b) :: natDigitsAux b m ((m + 1) / b) :=
  rfl

theorem parseNat_renderNat (b : Nat) (hb : 2 ≤ b) (hb16 : b ≤ 16) (n : Nat) :
    parseNatChars b (renderNat b n) = some n := by
  cases n with
  | zero =>
    show parseNatChars b ['0'] = some 0
    have h0 : digitVal '0' = some 0 := rfl
    simp [parseNatChars, List.foldl, parseStep, h0, show 0 < b by omega]
  | succ m =>
    have hne : renderNat b (m + 1) =
        (natDigits b (m + 1)).reverse.map digitChar := by
      simp [renderNat]
    have hmem : ∀ d ∈ natDigits b (m + 1), d < b := by
      intro d hd
      exact natDigitsAux_lt b hb _ _ _ hd
    have hmemrev : ∀ d ∈ (natDigits b (m + 1)).reverse, d < b := by
      intro d hd
      exact hmem d (List.mem_reverse.mp hd)
    have hfold := parse_fold_digits b hb hb16 (natDigits b (m + 1)).reverse 0
      hmemrev
    have hval := foldl_msb_reverse b (natDigits b (m + 1))
    have hof := ofDigitsLE_natDigitsAux b hb (m + 1) (m + 1) (le_refl _)
    have hconsform : (natDigits b (m + 1)).reverse.map digitChar ≠ [] := by
      rw [natDigits_cons]
      simp
    rw [hne]
    rcases hcons : (natDigits b (m + 1)).reverse.map digitChar with _ | ⟨c, cs⟩
    · exact absurd hcons hconsform
    · show List.foldl (parseStep b) (some 0) (c :: cs) = some (m + 1)
      rw [← hcons, hfold, hval]
      rw [show ofDigitsLE b (natDigits b (m + 1)) = m + 1 from hof]

theorem renderNat_chars (b : Nat) (hb : 2 ≤ b) (n : Nat) :
    ∀ c ∈ renderNat b n, ∃ d, d < b ∧ c = digitChar d := by
  intro c hc
  cases n with
  | zero =>
    simp [renderNat] at hc
    exact ⟨0, by omega, by rw [hc]; rfl⟩
  | succ m =>
    simp only [renderNat, Nat.succ_ne_zero, if_false, List.mem_map,
      List.mem_reverse] at hc
    obtain ⟨d, hd, hdc⟩ := hc
    exact ⟨d, natDigitsAux_lt b hb _ _ _ hd, hdc.symm⟩

theorem parseSigned_renderSigned (b : Nat) (hb : 2 ≤ b) (hb16 : b ≤ 16)
    (v : Int) : parseSignedChars b (renderSigned b v) = some v := by
  by_cases hv : v < 0
  · simp only [renderSigned, if_pos hv, parseSignedChars, reduceIte]
    rw [parseNat_renderNat b hb hb16]
    simp only [Option.map_some', Option.some.injEq, Int.ofNat_eq_coe]
    omega
  · simp only [renderSigned, if_neg hv]
    have hne : renderNat b v.toNat ≠ [] := by
      cases hn : v.toNat with
      | zero => simp [renderNat]
      | succ m => simp [renderNat, natDigits_cons]
    rcases hcons : renderNat b v.toNat with _ | ⟨c, cs⟩
    · exact absurd hcons hne
    · have hcmem : c ∈ renderNat b v.toNat := by
        rw [hcons]; exact List.mem_cons_self _ _
      obtain ⟨d, hd, hdc⟩ := renderNat_chars b hb v.toNat c hcmem
      have hdash : c ≠ '-' := by rw [hdc]; exact digitChar_ne_dash d (by omega)
      simp only [parseSignedChars, if_neg hdash]
      rw [← hcons, parseNat_renderNat b hb hb16]
      simp only [Option.map_some', Option.some.injEq, Int.ofNat_eq_coe]
      omega

theorem parseSigned_eq_parseNat (b : Nat) (c : Char) (cs : List Char)
    (hc : c ≠ '-') :
    parseSignedChars b (c :: cs) =
      (parseNatChars b (c :: cs)).map fun m => Int.ofNat m := by
  simp [parseSignedChars, hc]

theorem foldl_parseStep_zeros (b : Nat) (hb : 0 < b) :
    ∀ zs : List Char, (∀ c ∈ zs, c = '0') →
      List.foldl (parseStep b) (some 0) zs = some 0 := by
  intro zs
  induction zs with
  | nil => intro _; rfl
  | cons c cs ih =>
    intro h
    have hc : c = '0' := h c (List.mem_cons_self c cs)
    have hstep : parseStep b (some 0) c = some 0 := by
      rw [hc]
      simp [parseStep, show digitVal '0' = some 0 from rfl, hb]
    rw [List.foldl_cons, hstep]
    exact ih fun e he => h e (List.mem_cons_of_mem _ he)

theorem parseNat_cons (b : Nat) (c : Char) (cs : List Char) :
    parseNatChars b (c :: cs) = List.foldl (parseStep b) (some 0) (c :: cs) :=
  rfl

theorem parseNat_append_zeros (b : Nat) (hb : 0 < b) (zs rest : List Char)
    (hzs : ∀ c ∈ zs, c = '0') (hrest : rest ≠ []) :
    parseNatChars b (zs ++ rest) = parseNatChars b rest := by
  rcases rest with _ | ⟨r, rs⟩
  · exact absurd rfl hrest
  rcases zs with _ | ⟨z, zt⟩
  · rfl
  · have h1 : parseNatChars b ((z :: zt) ++ (r :: rs)) =
        List.foldl (parseStep b) (some 0) ((z :: zt) ++ (r :: rs)) := by
      simp [parseNatChars]
    rw [h1, List.foldl_append, foldl_parseStep_zeros b hb _ hzs, parseNat_cons]

theorem parseSigned_strip (b : Nat) (hb : 2 ≤ b) (l : List Char)
    (hall : ∀ c ∈ l, ∃ d, d < 16 ∧ c = digitChar d) (hne : l ≠ []) :
    parseSignedChars b (stripLeadingZeros l) =
      (parseNatChars b l).map fun m => Int.ofNat m := by
  have hb0 : 0 < b := by omega
  have hhead : ∀ c (cs : List Char), l = c :: cs → c ≠ '-' := by
    intro c cs hl
    obtain ⟨d, hd, hdc⟩ := hall c (by rw [hl]; exact List.mem_cons_self _ _)
    rw [hdc]
    exact digitChar_ne_dash d hd
  have hsplit := List.takeWhile_append_dropWhile (fun c => decide (c = '0')) l
  have hzeros : ∀ c ∈ l.takeWhile (fun c => decide (c = '0')), c = '0' := by
    intro c hc
    have := List.mem_takeWhile_imp hc
    simpa using this
  have hdropmem : ∀ c ∈ l.dropWhile (fun c => decide (c = '0')),
      ∃ d, d < 16 ∧ c = digitChar d := by
    intro c hc
    exact hall c ((List.dropWhile_sublist _).mem hc)
  unfold stripLeadingZeros
  by_cases hz : (l.takeWhile (fun c => c = '0')).isEmpty
  · simp only [hz, if_pos]
    rcases hl : l with _ | ⟨c, cs⟩
    · exact absurd hl hne
    · rw [← hl]
      have hc := hhead c cs hl
      rw [hl, parseSigned_eq_parseNat b c cs hc]
  · simp only [hz, if_neg, Bool.false_eq_true, not_false_eq_true]
    rcases hrest : l.dropWhile (fun c => decide (c = '0')) with _ | ⟨c, cs⟩
    · -- all characters are zeros; the regex leaves a single zero
      have hlz : l = l.takeWhile (fun c => decide (c = '0')) := by
        conv_lhs => rw [← hsplit]
        rw [hrest, List.append_nil]
      have hlzeros : ∀ c ∈ l, c = '0' := by
        intro c hc
        exact hzeros c (by rw [← hlz]; exact hc)
      have h1 : parseSignedChars b ['0'] =
          (parseNatChars b ['0']).map fun m => Int.ofNat m :=
        parseSigned_eq_parseNat b '0' [] (by decide)
      rw [h1]
      have h2 : parseNatChars b ['0'] = some 0 := by
        rw [parseNat_cons]
        exact foldl_parseStep_zeros b hb0 ['0'] (by simp)
      have h3 : parseNatChars b l = some 0 := by
        rcases hl : l with _ | ⟨c, cs⟩
        · exact absurd hl hne
        · rw [parseNat_cons]
          exact foldl_parseStep_zeros b hb0 _ (by rw [← hl]; exact hlzeros)
      rw [h2, h3]
    · have hlsplit : l = l.takeWhile (fun c => decide (c = '0')) ++ (c :: cs) := by
        rw [← hrest, hsplit]
      have hcd := hdropmem c (by rw [hrest]; exact List.mem_cons_self _ _)
      obtain ⟨d, hd, hdc⟩ := hcd
      have hcdash : c ≠ '-' := by rw [hdc]; exact digitChar_ne_dash d hd
      have hparse_l : parseNatChars b l = parseNatChars b (c :: cs) := by
        rw [hlsplit]
        exact parseNat_append_zeros b hb0 _ _ hzeros (by simp)
      by_cases hdec : isDecDigit c
      · simp only [hdec, if_pos]
        rw [parseSigned_eq_parseNat b c cs hcdash, hparse_l]
      · simp only [hdec, Bool.false_eq_true, not_false_eq_true, if_neg]
        by_cases hlen : 2 ≤ (l.takeWhile (fun c => c = '0')).length
        · simp only [hlen, if_pos]
          rw [parseSigned_eq_parseNat b '0' (c :: cs) (by decide)]
          have : parseNatChars b ('0' :: c :: cs) = parseNatChars b (c :: cs) :=
            parseNat_append_zeros b hb0 ['0'] (c :: cs) (by simp) (by simp)
          rw [this, hparse_l]
        · simp only [hlen, if_neg, not_false_eq_true]
          rcases hl : l with _ | ⟨c0, cs0⟩
          · exact absurd hl hne
          · rw [← hl]
            have hc0 := hhead c0 cs0 hl
            rw [hl, parseSigned_eq_parseNat b c0 cs0 hc0, ← hl]

theorem dropWhile_eq_self_of_all {p : Char → Bool} (l : List Char)
    (h : ∀ c ∈ l, p c = false) : l.dropWhile p = l := by
  cases l with
  | nil => rfl
  | cons c cs =>
    rw [List.dropWhile_cons, h c (List.mem_cons_self c cs)]
    simp

theorem jsTrim_eq_self (l : List Char) (h : ∀ c ∈ l, jsWhitespace c = false) :
    jsTrim l = l := by
  unfold jsTrim
  rw [dropWhile_eq_self_of_all l h,
    dropWhile_eq_self_of_all l.reverse fun c hc => h c (List.mem_reverse.mp hc),
    List.reverse_reverse]

theorem jsUpper_eq_self (l : List Char) (h : ∀ c ∈ l, c.toUpper = c) :
    jsUpper l = l := by
  unfold jsUpper
  induction l with
  | nil => rfl
  | cons c cs ih =>
    rw [List.map_cons, h c (List.mem_cons_self c cs),
      ih fun e he => h e (List.mem_cons_of_mem _ he)]

theorem take2_ne_0X (l : List Char)
    (hall : ∀ c ∈ l, ∃ d, d < 10 ∧ c = digitChar d) :
    ¬ l.take 2 = ['0', 'X'] := by
  rcases l with _ | ⟨c1, _ | ⟨c2, rest⟩⟩
  · simp
  · simp
  · intro h
    simp only [List.take_succ_cons, List.take_zero] at h
    have hc2 : c2 = 'X' := by
      have := congrArg (fun x => x.get? 1) h
      simpa using this
    obtain ⟨d, hd, hdc⟩ := hall c2 (by simp)
    rw [hc2] at hdc
    exact absurd hdc.symm (digitChar_ne_X d hd)

theorem strip_dash_head (rest : List Char) :
    stripLeadingZeros ('-' :: rest) = '-' :: rest := by
  unfold stripLeadingZeros
  simp [List.takeWhile_cons]

theorem longFromString_unsigned (chars : List Char) (u : Bool) (radix : Nat)
    (l : LongJS) (h : longFromString chars u radix = some l) :
    l.unsigned = u := by
  rcases chars with _ | ⟨c, rest⟩
  · simp [longFromString] at h
  · simp only [longFromString] at h
    by_cases hc : c = '-'
    · rw [if_pos hc] at h
      rcases hp : parseNatChars radix rest with _ | m
      · rw [hp] at h; simp at h
      · rw [hp] at h
        simp only [Option.map_some', Option.some.injEq] at h
        rw [← h]
        rfl
    · rw [if_neg hc] at h
      rcases hp : parseNatChars radix (c :: rest) with _ | m
      · rw [hp] at h; simp at h
      · rw [hp] at h
        simp only [Option.map_some', Option.some.injEq] at h
        rw [← h]
        rfl

theorem toInt_bounds_unsigned (l : LongJS) (h : l.unsigned = true) :
    0 ≤ l.toInt ∧ l.toInt ≤ longMaxUnsigned := by
  have hm : l.bits % two64 < two64 := Nat.mod_lt _ (by norm_num [two64])
  unfold LongJS.toInt longMaxUnsigned
  rw [h]
  simp only [if_true]
  unfold two64 at hm ⊢
  omega

theorem toInt_bounds_signed (l : LongJS) (h : l.unsigned = false) :
    longMinSigned ≤ l.toInt ∧ l.toInt ≤ longMaxSigned := by
  have hm : l.bits % two64 < two64 := Nat.mod_lt _ (by norm_num [two64])
  unfold LongJS.toInt longMinSigned longMaxSigned
  rw [h]
  simp only [Bool.false_eq_true, if_false]
  unfold two64 at hm ⊢
  split <;> omega

theorem makeLongTail_reject (b : Nat) (hb : 2 ≤ b) (hb16 : b ≤ 16)
    (signed : Bool) (v : Int) (body : List Char)
    (hparse : parseSignedChars b body = some v)
    (hout : if signed then longMaxSigned < v ∨ v < longMinSigned
            else longMaxUnsigned < v ∨ v < 0) :
    makeLongTail body signed b = none := by
  unfold makeLongTail
  rcases hls : longFromString body (!signed) b with _ | l
  · rfl
  · have hflag : l.unsigned = !signed := longFromString_unsigned _ _ _ _ hls
    have hne : ¬ longToString l b = body := by
      intro heq
      have h1 : parseSignedChars b (longToString l b) = some l.toInt :=
        parseSigned_renderSigned b hb hb16 l.toInt
      rw [heq, hparse] at h1
      have hv : v = l.toInt := by
        simpa using h1
      cases signed with
      | true =>
        have hb1 := toInt_bounds_signed l (by simpa using hflag)
        simp only [if_pos] at hout
        rw [hv] at hout
        omega
      | false =>
        have hb1 := toInt_bounds_unsigned l (by simpa using hflag)
        simp only [Bool.false_eq_true, if_false] at hout
        rw [hv] at hout
        omega
    simp [hne]

theorem renderNat_ne_nil (b n : Nat) : renderNat b n ≠ [] := by
  cases n with
  | zero => simp [renderNat]
  | succ m => simp [renderNat, natDigits_cons]

theorem makeLongString_renderDec_none (signed : Bool) (v : Int)
    (hout : if signed then longMaxSigned < v ∨ v < longMinSigned
            else longMaxUnsigned < v ∨ v < 0) :
    makeLongString (renderDecInt v) signed = none := by
  have h10 : (2 : Nat) ≤ 10 := by omega
  have h16 : (10 : Nat) ≤ 16 := by omega
  by_cases hv : v < 0
  · have hdata : (renderDecInt v).data = '-' :: renderNat 10 v.natAbs := by
      simp [renderDecInt, renderSigned, hv]
    have hall : ∀ c ∈ renderNat 10 v.natAbs, ∃ d, d < 10 ∧ c = digitChar d :=
      renderNat_chars 10 h10 _
    have hnws : ∀ c ∈ '-' :: renderNat 10 v.natAbs, jsWhitespace c = false := by
      intro c hc
      rcases List.mem_cons.mp hc with hc | hc
      · rw [hc]; decide
      · obtain ⟨d, hd, hdc⟩ := hall c hc
        rw [hdc]; exact digitChar_not_ws d (by omega)
    have hupper : ∀ c ∈ '-' :: renderNat 10 v.natAbs, c.toUpper = c := by
      intro c hc
      rcases List.mem_cons.mp hc with hc | hc
      · rw [hc]; decide
      · obtain ⟨d, hd, hdc⟩ := hall c hc
        rw [hdc]; exact digitChar_toUpper d (by omega)
    have ht : jsUpper (jsTrim ('-' :: renderNat 10 v.natAbs)) =
        '-' :: renderNat 10 v.natAbs := by
      rw [jsTrim_eq_self _ hnws, jsUpper_eq_self _ hupper]
    have hhex1 : ¬ (('-' :: renderNat 10 v.natAbs).take 2 = ['0', 'X']) := by
      intro h
      rw [List.take_succ_cons] at h
      simp at h
    have hhex2 : ¬ (('-' :: renderNat 10 v.natAbs).take 3 = ['-', '0', 'X']) := by
      intro h
      rw [List.take_succ_cons] at h
      have h2 : (renderNat 10 v.natAbs).take 2 = ['0', 'X'] := by
        simpa using h
      exact take2_ne_0X _ hall h2
    have hred : makeLongString (renderDecInt v) signed =
        makeLongTail (stripLeadingZeros ('-' :: renderNat 10 v.natAbs))
          signed 10 := by
      simp only [makeLongString, hdata, ht, hhex1, hhex2, if_false,
        false_or, or_false]
    rw [hred, strip_dash_head]
    refine makeLongTail_reject 10 h10 (by omega) signed v _ ?_ hout
    have hform : '-' :: renderNat 10 v.natAbs = renderSigned 10 v := by
      simp [renderSigned, hv]
    rw [hform]
    exact parseSigned_renderSigned 10 h10 (by omega) v
  · have hdata : (renderDecInt v).data = renderNat 10 v.toNat := by
      simp [renderDecInt, renderSigned, hv]
    have hall : ∀ c ∈ renderNat 10 v.toNat, ∃ d, d < 10 ∧ c = digitChar d :=
      renderNat_chars 10 h10 _
    have hnws : ∀ c ∈ renderNat 10 v.toNat, jsWhitespace c = false := by
      intro c hc
      obtain ⟨d, hd, hdc⟩ := hall c hc
      rw [hdc]; exact digitChar_not_ws d (by omega)
    have hupper : ∀ c ∈ renderNat 10 v.toNat, c.toUpper = c := by
      intro c hc
      obtain ⟨d, hd, hdc⟩ := hall c hc
      rw [hdc]; exact digitChar_toUpper d (by omega)
    have ht : jsUpper (jsTrim (renderNat 10 v.toNat)) = renderNat 10 v.toNat := by
      rw [jsTrim_eq_self _ hnws, jsUpper_eq_self _ hupper]
    have hhex1 : ¬ ((renderNat 10 v.toNat).take 2 = ['0', 'X']) :=
      take2_ne_0X _ hall
    have hhex2 : ¬ ((renderNat 10 v.toNat).take 3 = ['-', '0', 'X']) := by
      intro h
      rcases hcons : renderNat 10 v.toNat with _ | ⟨c, cs⟩
      · exact absurd hcons (renderNat_ne_nil 10 v.toNat)
      · rw [hcons, List.take_succ_cons] at h
        have hc : c = '-' := by
          have hh := congrArg List.head? h
          simpa using hh
        obtain ⟨d, hd, hdc⟩ := hall c (by rw [hcons]; exact List.mem_cons_self _ _)
        rw [hc] at hdc
        exact digitChar_ne_dash d (by omega) hdc.symm
    have hred : makeLongString (renderDecInt v) signed =
        makeLongTail (stripLeadingZeros (renderNat 10 v.toNat)) signed 10 := by
      simp only [makeLongString, hdata, ht, hhex1, hhex2, if_false,
        false_or, or_false]
    rw [hred]
    refine makeLongTail_reject 10 h10 (by omega) signed v _ ?_ hout
    have hstrip := parseSigned_strip 10 h10 (renderNat 10 v.toNat)
      (fun c hc => by
        obtain ⟨d, hd, hdc⟩ := hall c hc
        exact ⟨d, by omega, hdc⟩)
      (renderNat_ne_nil 10 v.toNat)
    rw [hstrip, parseNat_renderNat 10 h10 (by omega)]
    simp only [Option.map_some', Option.some.injEq, Int.ofNat_eq_coe]
    omega

theorem makeLongString_renderHex_none (signed : Bool) (v : Int)
    (hout : if signed then longMaxSigned < v ∨ v < longMinSigned
            else longMaxUnsigned < v ∨ v < 0) :
    makeLongString (renderHexInt v) signed = none := by
  have h2 : (2 : Nat) ≤ 16 := by omega
  have h16 : (16 : Nat) ≤ 16 := le_refl _
  by_cases hv : v < 0
  · have hdata : (renderHexInt v).data =
        '-' :: '0' :: 'x' :: renderNat 16 v.natAbs := by
      simp [renderHexInt, hv]
    have hall : ∀ c ∈ renderNat 16 v.natAbs, ∃ d, d < 16 ∧ c = digitChar d :=
      renderNat_chars 16 h2 _
    have hnws : ∀ c ∈ '-' :: '0' :: 'x' :: renderNat 16 v.natAbs,
        jsWhitespace c = false := by
      intro c hc
      rcases List.mem_cons.mp hc with hc | hc
      · rw [hc]; decide
      rcases List.mem_cons.mp hc with hc | hc
      · rw [hc]; decide
      rcases List.mem_cons.mp hc with hc | hc
      · rw [hc]; decide
      obtain ⟨d, hd, hdc⟩ := hall c hc
      rw [hdc]; exact digitChar_not_ws d hd
    have hfix : ∀ c ∈ renderNat 16 v.natAbs, c.toUpper = c := by
      intro c hc
      obtain ⟨d, hd, hdc⟩ := hall c hc
      rw [hdc]; exact digitChar_toUpper d hd
    have ht : jsUpper (jsTrim ('-' :: '0' :: 'x' :: renderNat 16 v.natAbs)) =
        '-' :: '0' :: 'X' :: renderNat 16 v.natAbs := by
      rw [jsTrim_eq_self _ hnws]
      show List.map Char.toUpper _ = _
      rw [List.map_cons, List.map_cons, List.map_cons,
        show List.map Char.toUpper (renderNat 16 v.natAbs) =
          renderNat 16 v.natAbs from jsUpper_eq_self _ hfix]
      rfl
    have hhex1 : ¬ (('-' :: '0' :: 'X' :: renderNat 16 v.natAbs).take 2 =
        ['0', 'X']) := by
      intro h
      rw [List.take_succ_cons] at h
      simp at h
    have hhex2 : ('-' :: '0' :: 'X' :: renderNat 16 v.natAbs).take 3 =
        ['-', '0', 'X'] := by
      simp
    have hred : makeLongString (renderHexInt v) signed =
        makeLongTail (stripLeadingZeros ('-' :: renderNat 16 v.natAbs))
          signed 16 := by
      simp only [makeLongString, hdata, ht, hhex1, hhex2, if_true, if_false,
        false_or, or_true]
      rfl
    rw [hred, strip_dash_head]
    refine makeLongTail_reject 16 h2 h16 signed v _ ?_ hout
    have hform : '-' :: renderNat 16 v.natAbs = renderSigned 16 v := by
      simp [renderSigned, hv]
    rw [hform]
    exact parseSigned_renderSigned 16 h2 h16 v
  · have hdata : (renderHexInt v).data = '0' :: 'x' :: renderNat 16 v.toNat := by
      simp [renderHexInt, hv]
    have hall : ∀ c ∈ renderNat 16 v.toNat, ∃ d, d < 16 ∧ c = digitChar d :=
      renderNat_chars 16 h2 _
    have hnws : ∀ c ∈ '0' :: 'x' :: renderNat 16 v.toNat,
        jsWhitespace c = false := by
      intro c hc
      rcases List.mem_cons.mp hc with hc | hc
      · rw [hc]; decide
      rcases List.mem_cons.mp hc with hc | hc
      · rw [hc]; decide
      obtain ⟨d, hd, hdc⟩ := hall c hc
      rw [hdc]; exact digitChar_not_ws d hd
    have hfix : ∀ c ∈ renderNat 16 v.toNat, c.toUpper = c := by
      intro c hc
      obtain ⟨d, hd, hdc⟩ := hall c hc
      rw [hdc]; exact digitChar_toUpper d hd
    have ht : jsUpper (jsTrim ('0' :: 'x' :: renderNat 16 v.toNat)) =
        '0' :: 'X' :: renderNat 16 v.toNat := by
      rw [jsTrim_eq_self _ hnws]
      show List.map Char.toUpper _ = _
      rw [List.map_cons, List.map_cons,
        show List.map Char.toUpper (renderNat 16 v.toNat) =
          renderNat 16 v.toNat from jsUpper_eq_self _ hfix]
      rfl
    have hhex1 : ('0' :: 'X' :: renderNat 16 v.toNat).take 2 = ['0', 'X'] := by
      simp
    have hred : makeLongString (renderHexInt v) signed =
        makeLongTail (stripLeadingZeros (renderNat 16 v.toNat)) signed 16 := by
      simp only [makeLongString, hdata, ht, hhex1, if_true, true_or]
      rfl
    rw [hred]
    refine makeLongTail_reject 16 h2 h16 signed v _ ?_ hout
    have hstrip := parseSigned_strip 16 h2 (renderNat 16 v.toNat) hall
      (renderNat_ne_nil 16 v.toNat)
    rw [hstrip, parseNat_renderNat 16 h2 h16]
    simp only [Option.map_some', Option.some.injEq, Int.ofNat_eq_coe]
    omega

/-- C5: 64-bit marshalling rejects sign mismatches and range overflow — a
Long-like value with `unsigned = true` is rejected for `x`; one with
`unsigned = false` is rejected for `t`; a native number outside the 53-bit
safe window is rejected for both, and a negative one for `t`; a decimal or
hex string denoting a value outside the field's 64-bit range is rejected;
and every accepted value is written, after aligning to 8, as its low then
high 32-bit words little-endian. -/
theorem marshall64_spec :
    (∀ (ps : PutStream) (low high : Int),
      marshallLong ps (.longVal low high true) true = none) ∧
    (∀ (ps : PutStream) (low high : Int),
      marshallLong ps (.longVal low high false) false = none) ∧
    (∀ (ps : PutStream) (v : Int),
      9007199254740991 < v ∨ v < -9007199254740991 →
      marshallLong ps (.numVal v) true = none ∧
      marshallLong ps (.numVal v) false = none) ∧
    (∀ (ps : PutStream) (v : Int), v < 0 →
      marshallLong ps (.numVal v) false = none) ∧
    (∀ (ps : PutStream) (v : Int), longMaxSigned < v ∨ v < longMinSigned →
      marshallLong ps (.strVal (renderDecInt v)) true = none ∧
      marshallLong ps (.strVal (renderHexInt v)) true = none) ∧
    (∀ (ps : PutStream) (v : Int), longMaxUnsigned < v ∨ v < 0 →
      marshallLong ps (.strVal (renderDecInt v)) false = none ∧
      marshallLong ps (.strVal (renderHexInt v)) false = none) ∧
    (∀ (ps : PutStream) (data : Num64Input) (signed : Bool) (l : LongJS),
      checkLong data signed = some l →
      marshallLong ps data signed =
        some ⟨(align ps 8)._offset + 8,
          (align ps 8).bytes ++ leBytes 4 l.low ++ leBytes 4 l.high⟩) := by
  have hml : ∀ (ps : PutStream) (data : Num64Input) (signed : Bool),
      checkLong data signed = none → marshallLong ps data signed = none := by
    intro ps data signed h
    unfold marshallLong
    rw [h]
  have hnum_signed : ∀ v : Int, 9007199254740991 < v ∨ v < -9007199254740991 →
      makeLong (.numVal v) true = none := by
    intro v hv
    simp only [makeLong, reduceIte]
    rw [if_pos hv]
  have hnum_unsigned : ∀ v : Int, 9007199254740991 < v ∨ v < 0 →
      makeLong (.numVal v) false = none := by
    intro v hv
    simp only [makeLong, Bool.false_eq_true, reduceIte]
    rw [if_pos hv]
  have hchk : ∀ (data : Num64Input) (signed : Bool),
      makeLong data signed = none → checkLong data signed = none := by
    intro data signed h
    unfold checkLong
    rw [h]
  refine ⟨?_, ?_, ?_, ?_, ?_, ?_, ?_⟩
  · intro ps low high
    apply hml
    simp [checkLong, makeLong, longFromBits]
  · intro ps low high
    apply hml
    simp [checkLong, makeLong, longFromBits]
  · intro ps v hv
    constructor
    · exact hml _ _ _ (hchk _ _ (hnum_signed v hv))
    · refine hml _ _ _ (hchk _ _ (hnum_unsigned v ?_))
      rcases hv with h | h
      · exact Or.inl h
      · exact Or.inr (by omega)
  · intro ps v hv
    exact hml _ _ _ (hchk _ _ (hnum_unsigned v (Or.inr hv)))
  · intro ps v hv
    constructor
    · exact hml _ _ _ (hchk _ _ (makeLongString_renderDec_none true v hv))
    · exact hml _ _ _ (hchk _ _ (makeLongString_renderHex_none true v hv))
  · intro ps v hv
    constructor
    · exact hml _ _ _ (hchk _ _ (makeLongString_renderDec_none false v hv))
    · exact hml _ _ _ (hchk _ _ (makeLongString_renderHex_none false v hv))
  · intro ps data signed l h
    unfold marshallLong
    rw [h]
    simp [PutStream.word32le, List.append_assoc]

/-- Witness for C5 at concrete inputs: an unsigned Long-like into `x`, a
signed one into `t`, `2^53` as a native number, `-1` into `t`, `2^63` as a
decimal string into `x`, `-0x1` into `t`, and the accepted value 5. -/
theorem marshall64_spec_witness :
    marshallLong ⟨0, []⟩ (.longVal 1 2 true) true = none ∧
    marshallLong ⟨0, []⟩ (.longVal 1 2 false) false = none ∧
    marshallLong ⟨0, []⟩ (.numVal 9007199254740992) true = none ∧
    marshallLong ⟨0, []⟩ (.numVal (-1)) false = none ∧
    marshallLong ⟨0, []⟩ (.strVal (renderDecInt 9223372036854775808)) true =
      none ∧
    marshallLong ⟨0, []⟩ (.strVal (renderHexInt (-1))) false = none ∧
    marshallLong ⟨0, []⟩ (.numVal 5) true =
      some ⟨8, (align ⟨0, []⟩ 8).bytes ++
        leBytes 4 (LongJS.low ⟨5, 0, false⟩) ++
        leBytes 4 (LongJS.high ⟨5, 0, false⟩)⟩ :=
  ⟨marshall64_spec.1 _ 1 2,
   marshall64_spec.2.1 _ 1 2,
   (marshall64_spec.2.2.1 _ _ (Or.inl (by norm_num))).1,
   marshall64_spec.2.2.2.1 _ _ (by norm_num),
   (marshall64_spec.2.2.2.2.1 _ _ (Or.inl (by norm_num [longMaxSigned]))).1,
   (marshall64_spec.2.2.2.2.2.1 _ _ (Or.inr (by norm_num))).2,
   marshall64_spec.2.2.2.2.2.2 ⟨0, []⟩ (.numVal 5) true ⟨5, 0, false⟩ rfl⟩

/-! ## C6 support: byte-buffer bookkeeping -/

theorem leBytes_length (n : Nat) (v : Int) : (leBytes n v).length = n := by
  simp [leBytes]

theorem patchBytes_length (bytes repl : List Nat) (idx : Nat)
    (h : idx + repl.length ≤ bytes.length) :
    (patchBytes bytes idx repl).length = bytes.length := by
  simp only [patchBytes, List.length_append, List.length_take,
    List.length_drop]
  omega

theorem patchBytes_take (bytes repl : List Nat) (idx k : Nat)
    (hk : k ≤ idx) (hidx : idx ≤ bytes.length) :
    (patchBytes bytes idx repl).take k = bytes.take k := by
  unfold patchBytes
  rw [List.append_assoc, List.take_append_of_le_length
    (by simp [List.length_take]; omega), List.take_take]
  congr 1
  omega

theorem headerAligned_mod (x : Nat) : (x + 7) / 8 * 8 % 8 = 0 := by
  omega

theorem le_headerAligned (x : Nat) : x ≤ (x + 7) / 8 * 8 := by
  omega

theorem header_eval (bodyLen serial : Nat) (hb : bodyLen < 4294967296)
    (hs : serial < 4294967296) :
    marshallData "yyyyuu"
      [.num 108, .num 1, .num 0, .num 1, .num (bodyLen : Int),
       .num (serial : Int)] 0 =
      some ([108, 1, 0, 1] ++ leBytes 4 (bodyLen : Int) ++
        leBytes 4 (serial : Int)) := by
  have h1 : ¬ (4294967295 : Nat) < bodyLen := by omega
  have h2 : ¬ (4294967295 : Nat) < serial := by omega
  have h3 : ¬ (bodyLen : Int) < 0 := by omega
  have h4 : ¬ (serial : Int) < 0 := by omega
  simp [marshallData, parseSignature, parseAll, parseOne, knownType,
    writeMany, writeOne, marshallSimple, marshallByte, marshallUInt32,
    align, PutStream.word32le, PutStream.word8, PutStream.put,
    h1, h2, h3, h4, valueSizeList, valueSize, leBytes, List.range_succ]

theorem fields_eval (dest path iface member : String)
    (hd : hasNulChar dest = false) (hp : hasNulChar path = false)
    (hi : hasNulChar iface = false) (hm : hasNulChar member = false) :
    ∃ FB, marshallData "a(yv)"
      [.list [fieldEntry 1 "o" (.str path), fieldEntry 2 "s" (.str iface),
              fieldEntry 3 "s" (.str member), fieldEntry 6 "s" (.str dest)]]
      12 = some FB := by
  have ho1 : hasNulChar "o" = false := rfl
  have ho2 : hasNulChar "s" = false := rfl
  have hv1 : checkValidSignature "o" = true := rfl
  have hv2 : checkValidSignature "s" = true := rfl
  simp [marshallData, parseSignature, parseAll, parseOne, parseChildren,
    knownType, bracketPair, writeMany, writeOne, writeElems, marshallSimple,
    marshallStringLike, marshallSignature, marshallByte, align, alignmentOf,
    PutStream.word32le, PutStream.word8, PutStream.put, fieldEntry,
    ho1, ho2, hv1, hv2, hd, hp, hi, hm, asciiBytes,
    valueSizeList, valueSize, List.range_succ]

/-- C6: for a method-call message with destination, path, interface and
member set (nonempty, NUL-free) and no body, the codec's `marshall` succeeds
and produces a buffer whose header-field array carries exactly the entries
for path, interface, member and destination in the declared order of the
header-field enumeration (ids 1, 2, 3, 6), whose fixed-header body-length
field (bytes 4–7) is zero, and whose total length is a multiple of 8. -/
theorem marshallMessage_method_call
    (dest path iface member : String) (serial : Nat)
    (hdest : dest ≠ "") (hdnul : hasNulChar dest = false)
    (hpath : path ≠ "") (hpnul : hasNulChar path = false)
    (hiface : iface ≠ "") (hinul : hasNulChar iface = false)
    (hmember : member ≠ "") (hmnul : hasNulChar member = false)
    (hserial : serial ≠ 0) (hserial32 : serial < 4294967296) :
    ∃ buf,
      marshallMessage
        { serial := some serial, type := some 1, flags := none,
          path := some path, iface := some iface, member := some member,
          errorName := none, replySerial := none, destination := some dest,
          sender := none, signature := none, body := none } = some buf ∧
      buildFields
        { serial := some serial, type := some 1, flags := none,
          path := some path, iface := some iface, member := some member,
          errorName := none, replySerial := none, destination := some dest,
          sender := none, signature := none, body := none } =
        [fieldEntry 1 "o" (.str path), fieldEntry 2 "s" (.str iface),
         fieldEntry 3 "s" (.str member), fieldEntry 6 "s" (.str dest)] ∧
      buf.length % 8 = 0 ∧
      buf.take 8 = [108, 1, 0, 1, 0, 0, 0, 0] := by
  have hflds : buildFields
      { serial := some serial, type := some 1, flags := none,
        path := some path, iface := some iface, member := some member,
        errorName := none, replySerial := none, destination := some dest,
        sender := none, signature := none, body := none } =
      [fieldEntry 1 "o" (.str path), fieldEntry 2 "s" (.str iface),
       fieldEntry 3 "s" (.str member), fieldEntry 6 "s" (.str dest)] := by
    simp [buildFields, strField, natField, hdest, hpath, hiface, hmember]
  have hheader : marshallData "yyyyuu"
      [.num 108, .num 1, .num 0, .num 1, .num 0, .num (serial : Int)] 0 =
      some ([108, 1, 0, 1, 0, 0, 0, 0] ++ leBytes 4 (serial : Int)) := by
    have h := header_eval 0 serial (by norm_num) hserial32
    simpa [show leBytes 4 (((0 : Nat) : Int)) = [0, 0, 0, 0] from rfl] using h
  obtain ⟨FB, hFB⟩ := fields_eval dest path iface member hdnul hpnul hinul hmnul
  have hmm : marshallMessage
      { serial := some serial, type := some 1, flags := none,
        path := some path, iface := some iface, member := some member,
        errorName := none, replySerial := none, destination := some dest,
        sender := none, signature := none, body := none } =
      some (patchBytes
        (patchBytes (List.replicate ((12 + FB.length + 7) / 8 * 8) 0) 0
          (108 :: 1 :: 0 :: 1 :: 0 :: 0 :: 0 :: 0 :: leBytes 4 (serial : Int)))
        12 FB) := by
    unfold marshallMessage
    simp [hserial, hflds, hheader, hFB, leBytes_length]
  have hHBlen :
      (108 :: 1 :: 0 :: 1 :: 0 :: 0 :: 0 :: 0 ::
        leBytes 4 (serial : Int)).length = 12 := by
    simp [leBytes_length]
  have hL : 12 + FB.length ≤ (12 + FB.length + 7) / 8 * 8 :=
    le_headerAligned (12 + FB.length)
  have hinnerlen : (patchBytes (List.replicate ((12 + FB.length + 7) / 8 * 8) 0) 0
      (108 :: 1 :: 0 :: 1 :: 0 :: 0 :: 0 :: 0 ::
        leBytes 4 (serial : Int))).length =
      (12 + FB.length + 7) / 8 * 8 := by
    rw [patchBytes_length]
    · simp
    · rw [hHBlen]
      simp only [List.length_replicate]
      omega
  refine ⟨_, hmm, hflds, ?_, ?_⟩
  · rw [patchBytes_length]
    · rw [hinnerlen]
      exact headerAligned_mod _
    · rw [hinnerlen]
      exact hL
  · rw [patchBytes_take _ _ 12 8 (by omega) (by rw [hinnerlen]; omega)]
    unfold patchBytes
    simp [leBytes_length]

/-- Witness for C6 at the spec's scenario 5 (`Hello` to the broker,
serial 1). -/
theorem marshallMessage_method_call_witness :
    ∃ buf,
      marshallMessage
        { serial := some 1, type := some 1, flags := none,
          path := some "/org/freedesktop/DBus",
          iface := some "org.freedesktop.DBus", member := some "Hello",
          errorName := none, replySerial := none,
          destination := some "org.freedesktop.DBus", sender := none,
          signature := none, body := none } = some buf ∧
      buildFields
        { serial := some 1, type := some 1, flags := none,
          path := some "/org/freedesktop/DBus",
          iface := some "org.freedesktop.DBus", member := some "Hello",
          errorName := none, replySerial := none,
          destination := some "org.freedesktop.DBus", sender := none,
          signature := none, body := none } =
        [fieldEntry 1 "o" (.str "/org/freedesktop/DBus"),
         fieldEntry 2 "s" (.str "org.freedesktop.DBus"),
         fieldEntry 3 "s" (.str "Hello"),
         fieldEntry 6 "s" (.str "org.freedesktop.DBus")] ∧
      buf.length % 8 = 0 ∧
      buf.take 8 = [108, 1, 0, 1, 0, 0, 0, 0] :=
  marshallMessage_method_call "org.freedesktop.DBus" "/org/freedesktop/DBus"
    "org.freedesktop.DBus" "Hello" 1
    (by decide) (by decide) (by decide) (by decide) (by decide) (by decide)
    (by decide) (by decide) (by decide) (by decide)

end DBus
